import Mathlib

/-!
Verification of the XPII-CHAIN provenance stapler and governance stack.

This file is a shallow embedding of `core/stapler.py` and `core/governance.py`.
Strings are modelled as `List Char`.  The SHA-256 primitive
(`hashlib.sha256(...).hexdigest()`) is an external library call and is
modelled as an uninterpreted function parameter `h : List Char → List Char`;
every theorem below is proved for all such functions, except where a
collision-freedom hypothesis is explicitly required (tamper detection).
-/

namespace XPII

abbrev LStr := List Char

/-- Model of Python `needle` being a prefix of `hay` (used by substring scan). -/
def startsWithL : LStr → LStr → Bool
  | [], _ => true
  | _ :: _, [] => false
  | a :: as, b :: bs => a == b && startsWithL as bs

/-- Model of Python `pat in s` (substring containment). -/
def containsSubL (pat : LStr) : LStr → Bool
  | [] => startsWithL pat []
  | c :: rest => startsWithL pat (c :: rest) || containsSubL pat rest

/-- Test that `pat` is a suffix of `s`. -/
def endsWithL (pat s : LStr) : Bool :=
  startsWithL pat.reverse s.reverse

/-- Model of Python `s.split(sep)` for a non-empty separator:
split on every non-overlapping occurrence, left to right. -/
def pySplit (sep : LStr) (s : LStr) : List LStr :=
  match s with
  | [] => [[]]
  | c :: rest =>
    if h : 0 < sep.length ∧ startsWithL sep (c :: rest) = true then
      [] :: pySplit sep (List.drop sep.length (c :: rest))
    else
      match pySplit sep rest with
      | [] => [[c]]
      | t :: ts => (c :: t) :: ts
termination_by s.length
decreasing_by
  · simp only [List.length_drop, List.length_cons]
    omega
  · simp only [List.length_cons]
    omega

/-- Model of Python `s.split(sep, 1)`: split at the first occurrence of `sep`;
`none` when `sep` does not occur (models the `sep in s` guard). -/
def pySplitFirst (sep : LStr) : LStr → Option (LStr × LStr)
  | [] => none
  | c :: rest =>
    if startsWithL sep (c :: rest) then
      some ([], List.drop sep.length (c :: rest))
    else
      match pySplitFirst sep rest with
      | none => none
      | some (pre, post) => some (c :: pre, post)

/-- Whitespace characters removed by Python `str.strip()` (ASCII model). -/
def isSpc (c : Char) : Bool :=
  c == ' ' || c == '\t' || c == '\n' || c == '\r' || c == Char.ofNat 11 || c == Char.ofNat 12

/-- Model of Python `s.strip()`. -/
def pyStrip (s : LStr) : LStr :=
  ((s.dropWhile isSpc).reverse.dropWhile isSpc).reverse

/-- Model of Python `s.upper()` (ASCII model, enough for hex digests). -/
def upperL (s : LStr) : LStr :=
  s.map Char.toUpper

/-- Lowercase hex digit for a value below 16. -/
def hexCh (d : Nat) : Char :=
  if d < 10 then Char.ofNat (48 + d) else Char.ofNat (87 + d)

/-- Decimal digits of a natural number (model of Python `str(n)` / JSON ints). -/
def natDigits (n : Nat) : LStr :=
  if h : n < 10 then [hexCh n] else natDigits (n / 10) ++ [hexCh (n % 10)]
termination_by n
decreasing_by
  exact Nat.div_lt_self (by omega) (by omega)

/-- Is `c` a lowercase hex digit (the alphabet of `hexdigest()` output). -/
def isHexDig (c : Char) : Bool :=
  (('0' ≤ c) && (c ≤ '9')) || (('a' ≤ c) && (c ≤ 'f'))

/-- The double-quote character. -/
def quoteCh : Char := Char.ofNat 34

/-- The apostrophe character. -/
def aposCh : Char := Char.ofNat 39

/-- Opening curly brace. -/
def lbrace : Char := Char.ofNat 123

/-- Closing curly brace. -/
def rbrace : Char := Char.ofNat 125

/-- Unicode `\uXXXX` escape (with a surrogate pair above the BMP), as produced by
`json.dumps` with its default `ensure_ascii=True`. -/
def hex4 (n : Nat) : LStr :=
  [hexCh (n / 4096 % 16), hexCh (n / 256 % 16), hexCh (n / 16 % 16), hexCh (n % 16)]

def uEsc (n : Nat) : LStr :=
  if n < 65536 then ['\\', 'u'] ++ hex4 n
  else
    ['\\', 'u'] ++ hex4 (55296 + (n - 65536) / 1024) ++
      ['\\', 'u'] ++ hex4 (56320 + (n - 65536) % 1024)

/-- Per-character JSON string escaping of `json.dumps` (ensure_ascii default:
everything outside printable ASCII is escaped). -/
def escCh (c : Char) : LStr :=
  if c == quoteCh then ['\\', quoteCh]
  else if c == '\\' then ['\\', '\\']
  else if c == '\n' then ['\\', 'n']
  else if c == '\t' then ['\\', 't']
  else if c == '\r' then ['\\', 'r']
  else if c == Char.ofNat 8 then ['\\', 'b']
  else if c == Char.ofNat 12 then ['\\', 'f']
  else if c.toNat < 32 || 126 < c.toNat then uEsc c.toNat
  else [c]

/-- A JSON string literal. -/
def jquote (s : LStr) : LStr :=
  quoteCh :: (s.map escCh).flatten ++ [quoteCh]

/-- JSON values appearing as audit-entry context values in this repository
(strings, ints and lists; no call site nests dictionaries inside a context). -/
inductive JVal where
  | jstr : LStr → JVal
  | jnum : Nat → JVal
  | jarr : List JVal → JVal

/-- Join rendered pieces with a separator (`", "` in `json.dumps`). -/
def joinSep (sep : LStr) : List LStr → LStr
  | [] => []
  | [x] => x
  | x :: y :: rest => x ++ sep ++ joinSep sep (y :: rest)

mutual

def renderJ : JVal → LStr
  | .jstr s => jquote s
  | .jnum n => natDigits n
  | .jarr xs => '[' :: joinSep [',', ' '] (renderJList xs) ++ [']']

def renderJList : List JVal → List LStr
  | [] => []
  | x :: xs => renderJ x :: renderJList xs

end

/-- Lexicographic (code-point) string order used by `sort_keys=True`. -/
def lexLe : LStr → LStr → Bool
  | [], _ => true
  | _ :: _, [] => false
  | a :: as, b :: bs => if a == b then lexLe as bs else decide (a < b)

def insKv (x : LStr × JVal) : List (LStr × JVal) → List (LStr × JVal)
  | [] => [x]
  | y :: ys => if lexLe x.1 y.1 then x :: y :: ys else y :: insKv x ys

def sortKvs (l : List (LStr × JVal)) : List (LStr × JVal) :=
  l.foldr insKv []

/-- Render a context dict with sorted keys, as `json.dumps(..., sort_keys=True)`. -/
def renderCtx (kvs : List (LStr × JVal)) : LStr :=
  lbrace :: joinSep [',', ' ']
    ((sortKvs kvs).map (fun kv => jquote kv.1 ++ [':', ' '] ++ renderJ kv.2)) ++ [rbrace]

/-! ## AuditLog (`governance.py`) -/

/-- One audit entry, with the fields built by `AuditLog.record`. -/
structure AuditEntry where
  seq : Nat
  timestamp : LStr
  agent_id : LStr
  action : LStr
  context : List (LStr × JVal)
  outcome : LStr
  prev_hash : LStr
  entry_hash : LStr

/-- Model of `json.dumps(entry_without_entry_hash, sort_keys=True)`: the canonical
serialization hashed both in `record` and in `verify_chain` (sorted key
order: action, agent_id, context, outcome, prev_hash, seq, timestamp). -/
def serializeNoHash (e : AuditEntry) : LStr :=
  lbrace :: joinSep [',', ' ']
    [ jquote ("action").toList ++ [':', ' '] ++ jquote e.action,
      jquote ("agent_id").toList ++ [':', ' '] ++ jquote e.agent_id,
      jquote ("context").toList ++ [':', ' '] ++ renderCtx e.context,
      jquote ("outcome").toList ++ [':', ' '] ++ jquote e.outcome,
      jquote ("prev_hash").toList ++ [':', ' '] ++ jquote e.prev_hash,
      jquote ("seq").toList ++ [':', ' '] ++ natDigits e.seq,
      jquote ("timestamp").toList ++ [':', ' '] ++ jquote e.timestamp ] ++ [rbrace]

/-- The `"GENESIS"` sentinel. -/
def genesis : LStr := ("GENESIS").toList

/-- Mutable state of an `AuditLog`: the entry list and the running
`_chain_hash` (the agent identity string is fixed at construction). -/
structure AuditLogState where
  agent_id : LStr
  entries : List AuditEntry
  chain_hash : LStr

def initLog (aid : LStr) : AuditLogState :=
  { agent_id := aid, entries := [], chain_hash := genesis }

/-- Inputs of one `record(action, context, outcome)` call; the timestamp is an
environment input (`datetime.now`). -/
structure RecordCall where
  ts : LStr
  action : LStr
  ctx : List (LStr × JVal)
  outcome : LStr

/-- Model of `AuditLog.record`: build the entry (without `entry_hash`), hash its
canonical serialization, chain, append. -/
def record (h : LStr → LStr) (st : AuditLogState) (c : RecordCall) :
    AuditLogState × AuditEntry :=
  let e0 : AuditEntry :=
    { seq := st.entries.length, timestamp := c.ts, agent_id := st.agent_id,
      action := c.action, context := c.ctx, outcome := c.outcome,
      prev_hash := st.chain_hash, entry_hash := [] }
  let hsh := h (serializeNoHash e0)
  let e := { e0 with entry_hash := hsh }
  ({ st with entries := st.entries ++ [e], chain_hash := hsh }, e)

/-- The scan loop of `AuditLog.verify_chain` (recompute hash, check stored
hash, check `prev_hash`, advance). -/
def verifyFrom (h : LStr → LStr) (prev : LStr) : List AuditEntry → Bool
  | [] => true
  | e :: rest =>
    if h (serializeNoHash e) == e.entry_hash then
      if e.prev_hash == prev then verifyFrom h e.entry_hash rest
      else false
    else false

def verify_chain (h : LStr → LStr) (st : AuditLogState) : Bool :=
  verifyFrom h genesis st.entries

/-- A log reachable by a finite sequence of `record` calls and nothing else. -/
def replay (h : LStr → LStr) (aid : LStr) (calls : List RecordCall) : AuditLogState :=
  calls.foldl (fun st c => (record h st c).1) (initLog aid)

/-- Hash of the last entry of `es`, else `p` (the chaining value carried by
the `verify_chain` scan). -/
def lastHashFrom (p : LStr) : List AuditEntry → LStr
  | [] => p
  | e :: es => lastHashFrom e.entry_hash es

/-- Hash of the last entry, or the genesis sentinel (the value kept in
`_chain_hash`). -/
def lastHash (es : List AuditEntry) : LStr :=
  lastHashFrom genesis es

/-- Replace the `outcome` of the entry at index `i`, keeping its stored
`entry_hash` and every other entry unchanged (the tampering of claim C3). -/
def setOutcome : List AuditEntry → Nat → LStr → List AuditEntry
  | [], _, _ => []
  | e :: rest, 0, o => { e with outcome := o } :: rest
  | e :: rest, n + 1, o => e :: setOutcome rest n o

/-! ## AgentIdentity (`governance.py`) -/

/-- In-memory state of an `AgentIdentity` (`created_at` is irrelevant to the
claims and omitted; the random `uuid4` seed is an input). -/
structure AgentIdentity where
  name : LStr
  seed : LStr
  identity_hash : LStr
  revoked : Bool
deriving DecidableEq

def agentMarker : LStr := ("AGENT").toList

/-- The hashed string `f"{AGENT_PREFIX}:{name}:{seed}"`. -/
def identitySource (name seed : LStr) : LStr :=
  agentMarker ++ [':'] ++ name ++ [':'] ++ seed

def mkAgentIdentity (h : LStr → LStr) (name seed : LStr) : AgentIdentity :=
  { name := name, seed := seed, identity_hash := h (identitySource name seed),
    revoked := false }

def identityId (a : AgentIdentity) : LStr :=
  agentMarker ++ [':'] ++ a.identity_hash.take 16

/-- Model of `AgentIdentity.verify`: false when revoked or when the recomputed hash
disagrees with the stored one. -/
def identityVerify (h : LStr → LStr) (a : AgentIdentity) : Bool :=
  if a.revoked then false
  else a.identity_hash == h (identitySource a.name a.seed)

/-! ## PolicyEngine (`governance.py`) -/

/-- The context dict handed to policies; only the keys read by the built-in
policies are typed, each optional (`ctx.get`). -/
structure PolicyCtx where
  identity : Option AgentIdentity
  author : Option LStr
  input_path : Option LStr
  output_path : Option LStr

/-- A policy: `(context) -> (allowed, reason)`. -/
def Policy : Type := PolicyCtx → Bool × LStr

def policy_identity_must_be_valid (h : LStr → LStr) : Policy := fun ctx =>
  match ctx.identity with
  | none => (false, ("No agent identity present in context.").toList)
  | some ident =>
    if identityVerify h ident then (true, ("Identity verified.").toList)
    else
      (false, ("Agent identity ").toList ++ [aposCh] ++ identityId ident ++
        [aposCh] ++ (" is invalid or revoked.").toList)

def policy_no_empty_author : Policy := fun ctx =>
  if pyStrip (ctx.author.getD []) == [] then
    (false, ("Author field must not be empty.").toList)
  else (true, ("Author field present.").toList)

/-- Simplified model of Python `repr` on a string: single-quoted with
backslash and quote escaping (the exact repr formatting is immaterial to
every claim; it only feeds a human-readable reason string). -/
def pyReprStr (s : LStr) : LStr :=
  aposCh :: (s.map (fun c =>
    if c == '\\' then ['\\', '\\'] else if c == aposCh then ['\\', aposCh]
    else [c])).flatten ++ [aposCh]

def travMsg (key path : LStr) : LStr :=
  ("Path traversal detected in ").toList ++ [aposCh] ++ key ++ [aposCh] ++
    (": ").toList ++ pyReprStr path ++ (".").toList

/-- Loop body of `_policy_no_path_traversal`: `input_path` checked first,
then `output_path`, first offender reported. -/
def policy_no_path_traversal : Policy := fun ctx =>
  if containsSubL ['.', '.'] (ctx.input_path.getD []) then
    (false, travMsg (("input_path").toList) (ctx.input_path.getD []))
  else if containsSubL ['.', '.'] (ctx.output_path.getD []) then
    (false, travMsg (("output_path").toList) (ctx.output_path.getD []))
  else (true, ("No path traversal detected.").toList)

def identityPolicyName : LStr := ("identity_must_be_valid").toList

def noEmptyAuthorName : LStr := ("no_empty_author").toList

def noPathTraversalName : LStr := ("no_path_traversal").toList

/-- Model of `_register_builtin_policies`, in registration (dict insertion) order. -/
def builtinPolicies (h : LStr → LStr) : List (LStr × Policy) :=
  [ (identityPolicyName, policy_identity_must_be_valid h),
    (noEmptyAuthorName, policy_no_empty_author),
    (noPathTraversalName, policy_no_path_traversal) ]

/-- Model of `PolicyEngine.register`: Python dict assignment — overwrite in place when
the name exists, else append. -/
def registerPolicy (ps : List (LStr × Policy)) (name : LStr) (f : Policy) :
    List (LStr × Policy) :=
  if ps.any (fun p => p.1 == name) then
    ps.map (fun p => if p.1 == name then (name, f) else p)
  else ps ++ [(name, f)]

def registerAll (ps : List (LStr × Policy)) (extras : List (LStr × Policy)) :
    List (LStr × Policy) :=
  extras.foldl (fun acc p => registerPolicy acc p.1 p.2) ps

/-- Format string of a failure reason. -/
def mkFailure (name reason : LStr) : LStr :=
  ("[POLICY:").toList ++ name ++ ("] ").toList ++ reason

def evalActionLabel : LStr := ("policy_evaluate:").toList

def allowedStr : LStr := ("ALLOWED").toList

def deniedStr : LStr := ("DENIED").toList

/-- Model of `PolicyEngine.evaluate`: run every registered policy in order, collect
formatted failures, log one audit entry, return `(all_passed, failures)`
together with the new audit-log state. -/
def evaluate (h : LStr → LStr) (policies : List (LStr × Policy))
    (logSt : AuditLogState) (ts action : LStr) (ctx : PolicyCtx) :
    Bool × List LStr × AuditLogState :=
  let failures := policies.foldl (fun acc p =>
    if (p.2 ctx).1 then acc else acc ++ [mkFailure p.1 (p.2 ctx).2]) []
  let all_passed := failures.isEmpty
  let st' := (record h logSt
    { ts := ts, action := evalActionLabel ++ action,
      ctx := [ (("policy_count").toList, JVal.jnum policies.length),
               (("failures").toList, JVal.jarr (failures.map JVal.jstr)) ],
      outcome := if all_passed then allowedStr else deniedStr }).1
  (all_passed, failures, st')

/-! ## OperatorControl (`governance.py`) -/

/-- The kill-switch state: the `threading.Event` halt flag. -/
structure OperatorControl where
  halted : Bool
deriving DecidableEq

def haltAction : LStr := ("operator_halt").toList

def haltedStr : LStr := ("HALTED").toList

def resumeAction : LStr := ("operator_resume").toList

def resumedStr : LStr := ("RESUMED").toList

/-- Model of `OperatorControl.halt`: set the flag, record the audit entry. -/
def ocHalt (h : LStr → LStr) (oc : OperatorControl) (logSt : AuditLogState)
    (ts reason : LStr) : OperatorControl × AuditLogState :=
  ({ halted := true },
    (record h logSt
      { ts := ts, action := haltAction,
        ctx := [(("reason").toList, JVal.jstr reason)], outcome := haltedStr }).1)

/-- Model of `OperatorControl.resume`: clear the flag, record the audit entry. -/
def ocResume (h : LStr → LStr) (oc : OperatorControl) (logSt : AuditLogState)
    (ts reason : LStr) : OperatorControl × AuditLogState :=
  ({ halted := false },
    (record h logSt
      { ts := ts, action := resumeAction,
        ctx := [(("reason").toList, JVal.jstr reason)], outcome := resumedStr }).1)

def opBlockedMsg : LStr :=
  ("Operation blocked: operator kill-switch is active. " ++
    "Human authorization required to resume.").toList

/-- Model of `OperatorControl.assert_active`: raise (here: return an error) exactly
when the halt flag is set. -/
def assert_active (oc : OperatorControl) : Except LStr Unit :=
  if oc.halted then Except.error opBlockedMsg else Except.ok ()

/-! ## XPIIStapler (`stapler.py`)

The zip container and the XML parts are modelled at parse level: an element is
`Option (Option LStr)` — `none` when the element is absent, `some t` when it
is present with text `t` (lxml text may itself be `None`).  `pack`/`unpack`
serialization is assumed faithful (parsing the packed archive yields the
workspace parts that were written). -/

/-- Parsed `docProps/core.xml`: the three elements the stapler touches. -/
structure CoreXml where
  creator : Option (Option LStr)
  descr : Option (Option LStr)
  modified : Option (Option LStr)
deriving DecidableEq

/-- Parsed `word/settings.xml`: the `w:rsids` collection, each `w:rsid`
child carrying an optional `w:val` attribute. -/
structure SettingsXml where
  rsids : Option (List (Option LStr))
deriving DecidableEq

/-- An input `.docx` package: its raw bytes together with its parsed parts
(`none` part = member absent, which the pipeline tolerates). -/
structure Package where
  bytes : LStr
  core : Option CoreXml
  settings : Option SettingsXml
deriving DecidableEq

/-- The extracted ephemeral workspace (`work_dir` contents). -/
structure Workspace where
  core : Option CoreXml
  settings : Option SettingsXml
deriving DecidableEq

/-- Mutable state of an `XPIIStapler`: `_source_hash` and the workspace directory
(`none` when not extracted / already removed). -/
structure StaplerSt where
  source_hash : Option LStr
  workspace : Option Workspace
deriving DecidableEq

def initStapler : StaplerSt :=
  { source_hash := none, workspace := none }

/-- Model of `XPIIStapler.unpack`: destroy any stale workspace, hash the raw source
bytes, extract every part. -/
def unpack (h : LStr → LStr) (st : StaplerSt) (pkg : Package) : StaplerSt :=
  let _ := st
  { source_hash := some (h pkg.bytes),
    workspace := some { core := pkg.core, settings := pkg.settings } }

def sessionKey : LStr := ("XPII-CHAIN-PROVENANCE").toList

def hashKey : LStr := ("XPII-CHAIN-SHA256").toList

def unknownStr : LStr := ("UNKNOWN").toList

/-- Format of the embedded description string (session key, id, hash key, digest). -/
def descFormat (sid src : LStr) : LStr :=
  sessionKey ++ [':', ' '] ++ sid ++ [' ', '|', ' '] ++ hashKey ++ [':', ' '] ++ src

/-- Model of `hashlib.sha256(session_id).hexdigest()[:8].upper()`: the deterministic
revision marker. -/
def deriveRsid (h : LStr → LStr) (sid : LStr) : LStr :=
  upperL (List.take 8 (h sid))

/-- The `w:rsids` update: append one entry holding the marker unless an
existing `w:rsid` already carries it. -/
def rsidUpdate (v : LStr) (lst : List (Option LStr)) : List (Option LStr) :=
  if lst.contains (some v) then lst else lst ++ [some v]

/-- Model of `XPIIStapler.inject_metadata`.  A `session_id` of none (or empty) falls back
to a timestamp generated from current local time (`nowLocal`); `nowUtc` is the
`dcterms:modified` timestamp.  Returns the new state and the returned hash
string. -/
def inject_metadata (h : LStr → LStr) (st : StaplerSt) (author : LStr)
    (session_id : Option LStr) (nowLocal nowUtc : LStr) : StaplerSt × LStr :=
  let sid := match session_id with
    | none => nowLocal
    | some s => if s == [] then nowLocal else s
  let source_hash := match st.source_hash with
    | none => unknownStr
    | some hsh => if hsh == [] then unknownStr else hsh
  match st.workspace with
  | none => (st, source_hash)
  | some ws =>
    let core' := match ws.core with
      | none => none
      | some _ => some { creator := some (some author),
                         descr := some (some (descFormat sid source_hash)),
                         modified := some (some nowUtc) : CoreXml }
    let settings' := match ws.settings with
      | none => none
      | some sx =>
        some { rsids := some (rsidUpdate (deriveRsid h sid) (sx.rsids.getD [])) : SettingsXml }
    ({ st with workspace := some { core := core', settings := settings' } }, source_hash)

/-- The packed output archive, at parse level. -/
structure PackedPkg where
  core : Option CoreXml
  settings : Option SettingsXml
deriving DecidableEq

inductive PackErr where
  | zipWriteFailed
  | missingWorkspace
deriving DecidableEq

/-- Model of `XPIIStapler.pack`: write the archive, then `shutil.rmtree(work_dir)`.
The zip write may raise (`writeOk = false` models an I/O error inside the
`with` block); there is no `try/finally`, so the cleanup runs only when the
write succeeds. -/
def packSt (st : StaplerSt) (writeOk : Bool) : StaplerSt × Except PackErr PackedPkg :=
  if writeOk then
    match st.workspace with
    | some ws => ({ st with workspace := none },
        Except.ok { core := ws.core, settings := ws.settings })
    | none => (st, Except.error PackErr.missingWorkspace)
  else (st, Except.error PackErr.zipWriteFailed)

/-! ### Verifier -/

inductive VerErr where
  | noMetadata
  | noProvenance
deriving DecidableEq

/-- Python dict assignment `d[k] = v`: overwrite in place or append. -/
def dictUpd (d : List (LStr × LStr)) (k v : LStr) : List (LStr × LStr) :=
  if d.any (fun p => p.1 == k) then
    d.map (fun p => if p.1 == k then (k, v) else p)
  else d ++ [(k, v)]

def dictGet (d : List (LStr × LStr)) (k : LStr) : Option LStr :=
  (d.find? (fun p => p.1 == k)).map (fun p => p.2)

/-- The key/value recovery loop of `XPIIStapler.verify`:
`raw.split(' | ')`, then `part.split(': ', 1)` guarded by `': ' in part`,
inserting `key.strip() -> value.strip()`. -/
def parsePairs (raw : LStr) : List (LStr × LStr) :=
  (pySplit [' ', '|', ' '] raw).foldl (fun acc part =>
    match pySplitFirst [':', ' '] part with
    | none => acc
    | some kv => dictUpd acc (pyStrip kv.1) (pyStrip kv.2)) []

/-- The dict returned by `verify` (the `raw` entry and the parsed pairs are
kept apart from the fixed `author`/`modified` entries, which the code assigns
last).  `author`/`modified` are the element texts, possibly `none` (lxml text
`None`), or `"Unknown"` when the element is absent. -/
structure VerifyResult where
  raw : LStr
  pairs : List (LStr × LStr)
  author : Option LStr
  modified : Option LStr
deriving DecidableEq

/-- Model of `XPIIStapler.verify`: `NoMetadata` when `docProps/core.xml` is absent,
`NoProvenance` when `dc:description` is absent, has no text, or lacks the
session marker token; otherwise the parsed record. -/
def verifyPkg (pkg : PackedPkg) : Except VerErr VerifyResult :=
  match pkg.core with
  | none => Except.error VerErr.noMetadata
  | some core =>
    match core.descr with
    | none => Except.error VerErr.noProvenance
    | some none => Except.error VerErr.noProvenance
    | some (some raw) =>
      if containsSubL sessionKey raw then
        Except.ok
          { raw := raw, pairs := parsePairs raw,
            author := match core.creator with
              | none => some unknownStr
              | some t => t,
            modified := match core.modified with
              | none => some unknownStr
              | some t => t }
      else Except.error VerErr.noProvenance

/-- The settings `w:rsids` list visible in a stapler workspace, when present. -/
def wsRsids (st : StaplerSt) : Option (List (Option LStr)) :=
  match st.workspace with
  | none => none
  | some ws => match ws.settings with
    | none => none
    | some sx => sx.rsids

/-! ### Byte-level pack order (claim C4) -/

/-- One file met by the `os.walk` loop in `pack`: archive member name
(workspace-relative path) and content bytes. -/
structure WalkFile where
  path : LStr
  content : LStr
deriving DecidableEq

/-- The member-write loop of `XPIIStapler.pack`: files are written to the zip
in exactly the order the file-system walk enumerates them (no sorting).  Equal
member sequences give byte-identical archives; different sequences differ. -/
def pack_members (walk : List WalkFile) : List WalkFile :=
  walk.foldl (fun acc f => acc ++ [f]) []

/-! ## Derived definitions used by the statements and proofs -/

/-- The audit-chain invariant maintained by `record`:
sequence numbers are `0, 1, 2, ...`; every stored `entry_hash` is the hash of
the canonical serialization; `prev_hash` values are `GENESIS` followed by the
predecessors' entry hashes; `_chain_hash` caches the last entry hash; and the
integrity scan succeeds. -/
def auditInv (h : LStr → LStr) (st : AuditLogState) : Prop :=
  st.entries.map (fun e => e.seq) = List.range st.entries.length ∧
  st.entries.map (fun e => e.entry_hash)
    = st.entries.map (fun e => h (serializeNoHash e)) ∧
  st.entries.map (fun e => e.prev_hash)
    = (genesis :: st.entries.map (fun e => e.entry_hash)).dropLast ∧
  st.chain_hash = lastHash st.entries ∧
  verifyFrom h genesis st.entries = true

/-! ## Helper lemmas -/

theorem lastHashFrom_concat (e : AuditEntry) :
    ∀ (es : List AuditEntry) (p : LStr), lastHashFrom p (es ++ [e]) = e.entry_hash := by
  intro es
  induction es with
  | nil => intro p; rfl
  | cons x xs ih => intro p; simpa [lastHashFrom] using ih x.entry_hash

theorem lastHash_concat (es : List AuditEntry) (e : AuditEntry) :
    lastHash (es ++ [e]) = e.entry_hash := by
  simp [lastHash, lastHashFrom_concat]

theorem verifyFrom_append (h : LStr → LStr) (e : AuditEntry) :
    ∀ (es : List AuditEntry) (p : LStr),
    verifyFrom h p es = true →
    h (serializeNoHash e) = e.entry_hash →
    e.prev_hash = lastHashFrom p es →
    verifyFrom h p (es ++ [e]) = true := by
  intro es
  induction es with
  | nil =>
    intro p _ hh hp
    simp [verifyFrom, hh, lastHashFrom] at *
    simp [hh, hp]
  | cons x xs ih =>
    intro p hv hh hp
    simp only [List.cons_append, verifyFrom] at hv ⊢
    rcases hb1 : (h (serializeNoHash x) == x.entry_hash) with _ | _
    · simp [hb1] at hv
    · rcases hb2 : (x.prev_hash == p) with _ | _
      · simp [hb1, hb2] at hv
      · simp only [hb1, hb2, if_true] at hv ⊢
        exact ih x.entry_hash hv hh hp

theorem dropLast_lastHash (es : List AuditEntry) :
    (genesis :: es.map (fun e => e.entry_hash)).dropLast ++ [lastHash es]
      = genesis :: es.map (fun e => e.entry_hash) := by
  rcases List.eq_nil_or_concat es with hnil | ⟨es', a, hcat⟩
  · subst hnil; rfl
  · subst hcat
    rw [List.concat_eq_append, List.map_append]
    simp only [List.map_cons, List.map_nil]
    rw [← List.cons_append, List.dropLast_concat, lastHash_concat]

theorem auditInv_init (h : LStr → LStr) (aid : LStr) : auditInv h (initLog aid) :=
  ⟨rfl, rfl, rfl, rfl, rfl⟩

theorem auditInv_record (h : LStr → LStr) (st : AuditLogState) (c : RecordCall)
    (hinv : auditInv h st) : auditInv h (record h st c).1 := by
  obtain ⟨hseq, hhash, hprev, hchain, hver⟩ := hinv
  refine ⟨?_, ?_, ?_, ?_, ?_⟩
  · simp [record, List.range_succ, hseq]
  · simp [record, hhash, serializeNoHash]
  · simp only [record, List.map_append, List.map_cons, List.map_nil]
    rw [← List.cons_append, List.dropLast_concat]
    have : st.chain_hash = lastHash st.entries := hchain
    simp only [hprev, this]
    exact dropLast_lastHash st.entries
  · simp only [record]
    rw [lastHash_concat]
  · simp only [record, verify_chain]
    refine verifyFrom_append h _ st.entries genesis hver rfl ?_
    exact hchain

theorem auditInv_foldl (h : LStr → LStr) :
    ∀ (cs : List RecordCall) (st : AuditLogState), auditInv h st →
      auditInv h (cs.foldl (fun s c => (record h s c).1) st)
  | [], _, hi => hi
  | c :: cs, st, hi => auditInv_foldl h cs _ (auditInv_record h st c hi)

theorem auditInv_replay (h : LStr → LStr) (aid : LStr) (calls : List RecordCall) :
    auditInv h (replay h aid calls) :=
  auditInv_foldl h calls (initLog aid) (auditInv_init h aid)

theorem record_entries_length (h : LStr → LStr) (st : AuditLogState) (c : RecordCall) :
    (record h st c).1.entries.length = st.entries.length + 1 := by
  simp [record]

theorem replay_foldl_length (h : LStr → LStr) :
    ∀ (cs : List RecordCall) (st : AuditLogState),
      (cs.foldl (fun s c => (record h s c).1) st).entries.length
        = st.entries.length + cs.length := by
  intro cs
  induction cs with
  | nil => intro st; simp
  | cons c cs ih =>
    intro st
    simp only [List.foldl_cons, List.length_cons]
    rw [ih, record_entries_length]
    omega

theorem replay_length (h : LStr → LStr) (aid : LStr) (calls : List RecordCall) :
    (replay h aid calls).entries.length = calls.length := by
  simpa [initLog] using replay_foldl_length h calls (initLog aid)

theorem verifyFrom_tamper (h : LStr → LStr) :
    ∀ (es : List AuditEntry) (p : LStr) (i : Nat) (o : LStr) (hi : i < es.length),
    verifyFrom h p es = true →
    h (serializeNoHash { es.get ⟨i, hi⟩ with outcome := o })
      ≠ (es.get ⟨i, hi⟩).entry_hash →
    verifyFrom h p (setOutcome es i o) = false := by
  intro es
  induction es with
  | nil => intro p i o hi; exact absurd hi (by simp)
  | cons x xs ih =>
    intro p i o hi hv hne
    cases i with
    | zero =>
      have hb : (h (serializeNoHash { x with outcome := o })
          == x.entry_hash) = false := by
        simp only [List.get] at hne
        exact beq_eq_false_iff_ne.mpr hne
      simp [setOutcome, verifyFrom, hb]
    | succ n =>
      simp only [List.length_cons, Nat.succ_lt_succ_iff] at hi
      simp only [verifyFrom] at hv
      rcases hb1 : (h (serializeNoHash x) == x.entry_hash) with _ | _
      · simp [hb1] at hv
      · rcases hb2 : (x.prev_hash == p) with _ | _
        · simp [hb1, hb2] at hv
        · simp only [hb1, hb2, if_true] at hv
          simp only [setOutcome, verifyFrom, hb1, hb2, if_true]
          exact ih x.entry_hash n o hi hv hne

/-- C2.  Audit-chain invariant: in every AuditLog state reachable by a finite
sequence of `record` calls (and no other mutation), `verify_chain` is true,
entry 0 has `prev_hash = "GENESIS"`, each later entry chains to its
predecessor's `entry_hash`, every stored `entry_hash` is the hash of the
canonical sorted-key serialization of the entry without its `entry_hash`
field, and the `seq` values are exactly `0, 1, 2, ...` in append order.
Proved for every hash function `h` (the model of `hashlib.sha256.hexdigest`). -/
theorem C2_audit_chain_invariant (h : LStr → LStr) (aid : LStr)
    (calls : List RecordCall) :
    verify_chain h (replay h aid calls) = true ∧
    (replay h aid calls).entries.map (fun e => e.seq)
      = List.range (replay h aid calls).entries.length ∧
    (replay h aid calls).entries.map (fun e => e.prev_hash)
      = (genesis :: (replay h aid calls).entries.map (fun e => e.entry_hash)).dropLast ∧
    (replay h aid calls).entries.map (fun e => e.entry_hash)
      = (replay h aid calls).entries.map (fun e => h (serializeNoHash e)) ∧
    (replay h aid calls).entries.length = calls.length := by
  obtain ⟨hseq, hhash, hprev, _, hver⟩ := auditInv_replay h aid calls
  exact ⟨hver, hseq, hprev, hhash, replay_length h aid calls⟩

/-- C3.  Tamper detection: change the `outcome` of the stored entry at index
`i` of a log built by `record` calls to any different string, keeping its
stored `entry_hash` and all other entries; then `verify_chain` returns false.
The hash is modelled as an uninterpreted function, so the (true for SHA-256
unless a collision is exhibited) fact that the tampered serialization hashes
to something other than the stored digest is taken as a hypothesis. -/
theorem C3_tamper_detection (h : LStr → LStr) (aid : LStr)
    (calls : List RecordCall) (i : Nat) (o : LStr)
    (hi : i < (replay h aid calls).entries.length)
    (hdiff : o ≠ ((replay h aid calls).entries.get ⟨i, hi⟩).outcome)
    (hcol : h (serializeNoHash
        { (replay h aid calls).entries.get ⟨i, hi⟩ with outcome := o })
      ≠ ((replay h aid calls).entries.get ⟨i, hi⟩).entry_hash) :
    verify_chain h
      { replay h aid calls with
        entries := setOutcome (replay h aid calls).entries i o } = false := by
  obtain ⟨_, _, _, _, hver⟩ := auditInv_replay h aid calls
  exact verifyFrom_tamper h (replay h aid calls).entries genesis i o hi hver hcol

/-- Witness for C3 at a concrete two-entry log, tampering entry 0, with the
identity function as the (injective) hash stub. -/
theorem C3_tamper_detection_witness :
    verify_chain (fun l => l)
      { replay (fun l => l) (['A'])
          [ { ts := ['T'], action := ['a'], ctx := [], outcome := ['O', 'K'] },
            { ts := ['U'], action := ['b'], ctx := [], outcome := ['O', 'K'] } ] with
        entries := setOutcome
          (replay (fun l => l) (['A'])
            [ { ts := ['T'], action := ['a'], ctx := [], outcome := ['O', 'K'] },
              { ts := ['U'], action := ['b'], ctx := [], outcome := ['O', 'K'] } ]).entries
          0 (['X']) } = false :=
  C3_tamper_detection (fun l => l) (['A'])
    [ { ts := ['T'], action := ['a'], ctx := [], outcome := ['O', 'K'] },
      { ts := ['U'], action := ['b'], ctx := [], outcome := ['O', 'K'] } ]
    0 (['X']) (by decide) (by decide) (by decide)

/-- C7.  Kill switch: `assert_active` returns the OperationBlocked error iff
the halt flag is set; after `halt()` it fails, after a subsequent `resume()`
it returns normally; and `halt()` on an already-halted control leaves the flag
set, records one more audit entry and changes nothing else. -/
theorem C7_kill_switch (h : LStr → LStr) (oc : OperatorControl)
    (logSt : AuditLogState) (ts r ts2 r2 : LStr) :
    (assert_active oc = Except.error opBlockedMsg ↔ oc.halted = true) ∧
    (assert_active oc = Except.ok () ↔ oc.halted = false) ∧
    assert_active (ocHalt h oc logSt ts r).1 = Except.error opBlockedMsg ∧
    assert_active
      (ocResume h (ocHalt h oc logSt ts r).1 (ocHalt h oc logSt ts r).2 ts2 r2).1
      = Except.ok () ∧
    (oc.halted = true →
      (ocHalt h oc logSt ts r).1 = oc ∧
      ∃ e, (ocHalt h oc logSt ts r).2.entries = logSt.entries ++ [e] ∧
        e.action = haltAction ∧ e.outcome = haltedStr) := by
  obtain ⟨b⟩ := oc
  refine ⟨?_, ?_, ?_, ?_, ?_⟩
  · cases b <;> simp [assert_active]
  · cases b <;> simp [assert_active]
  · simp [assert_active, ocHalt]
  · simp [assert_active, ocHalt, ocResume]
  · intro hb
    replace hb : b = true := hb
    subst hb
    refine ⟨rfl, ?_⟩
    exact ⟨(record h logSt
      { ts := ts, action := haltAction,
        ctx := [(("reason").toList, JVal.jstr r)], outcome := haltedStr }).2,
      by simp [ocHalt, record], by simp [record], by simp [record]⟩

/-- Witness for C7 at a concrete already-halted control: the flag stays set
and exactly one `operator_halt`/`HALTED` entry is appended. -/
theorem C7_kill_switch_witness :
    (ocHalt (fun l => l) { halted := true } (initLog (['A'])) (['T']) (['R'])).1
      = ({ halted := true } : OperatorControl) ∧
    ∃ e, (ocHalt (fun l => l) { halted := true } (initLog (['A']))
          (['T']) (['R'])).2.entries
        = (initLog (['A'])).entries ++ [e] ∧
      e.action = haltAction ∧ e.outcome = haltedStr :=
  (C7_kill_switch (fun l => l) { halted := true } (initLog (['A']))
    (['T']) (['R']) (['U']) (['S'])).2.2.2.2 rfl

/-- C8.  Verifier error behaviour: `NoMetadata` exactly when
`docProps/core.xml` is absent; `NoProvenance` exactly when that member is
present but `dc:description` is absent, has no text, or its text lacks the
`XPII-CHAIN-PROVENANCE` token; on success a missing `dc:creator` or
`dcterms:modified` element yields the default `"Unknown"`. -/
theorem C8_verifier_errors (pkg : PackedPkg) :
    (verifyPkg pkg = Except.error VerErr.noMetadata ↔ pkg.core = none) ∧
    (verifyPkg pkg = Except.error VerErr.noProvenance ↔
      ∃ c, pkg.core = some c ∧
        (c.descr = none ∨ c.descr = some none ∨
          ∃ raw, c.descr = some (some raw) ∧ containsSubL sessionKey raw = false)) ∧
    (∀ c res, pkg.core = some c → verifyPkg pkg = Except.ok res →
      c.creator = none → res.author = some unknownStr) ∧
    (∀ c res, pkg.core = some c → verifyPkg pkg = Except.ok res →
      c.modified = none → res.modified = some unknownStr) := by
  obtain ⟨core, settings⟩ := pkg
  cases core with
  | none => simp [verifyPkg]
  | some c =>
    obtain ⟨cr, d, m⟩ := c
    cases d with
    | none => simp [verifyPkg]
    | some dt =>
      cases dt with
      | none => simp [verifyPkg]
      | some raw =>
        rcases hc : containsSubL sessionKey raw with _ | _
        · refine ⟨by simp [verifyPkg, hc], ?_, ?_, ?_⟩
          · simp only [verifyPkg, hc, Bool.false_eq_true, if_false]
            constructor
            · intro; exact ⟨_, rfl, Or.inr (Or.inr ⟨raw, rfl, hc⟩)⟩
            · intro; trivial
          · intro c' res hce hres
            simp [verifyPkg, hc] at hres
          · intro c' res hce hres
            simp [verifyPkg, hc] at hres
        · refine ⟨by simp [verifyPkg, hc], ?_, ?_, ?_⟩
          · simp only [verifyPkg, hc, if_true]
            constructor
            · intro hcontra; exact absurd hcontra (by simp)
            · rintro ⟨c', hc', hbad⟩
              obtain rfl : ({ creator := cr, descr := some (some raw), modified := m } : CoreXml) = c' := by
                injection hc'
              rcases hbad with hb | hb | ⟨raw2, hr2, hcf⟩
              · exact absurd hb (by simp)
              · exact absurd hb (by simp)
              · obtain rfl : raw = raw2 := by
                  injection hr2 with hr2a
                  injection hr2a
                rw [hc] at hcf
                exact absurd hcf (by simp)
          · intro c' res hce hres hcrnone
            obtain rfl : ({ creator := cr, descr := some (some raw), modified := m } : CoreXml) = c' := by
              injection hce
            simp only [verifyPkg, hc, if_true, Except.ok.injEq] at hres
            subst hcrnone
            rw [← hres]
          · intro c' res hce hres hmnone
            obtain rfl : ({ creator := cr, descr := some (some raw), modified := m } : CoreXml) = c' := by
              injection hce
            simp only [verifyPkg, hc, if_true, Except.ok.injEq] at hres
            subst hmnone
            rw [← hres]

/-- Witness for C8: a concrete archive whose `core.xml` has the provenance
token but neither `dc:creator` nor `dcterms:modified`; both default to
`"Unknown"`. -/
theorem C8_verifier_errors_witness :
    ∃ res, verifyPkg
        { core := some { creator := none, descr := some (some sessionKey), modified := none },
          settings := none } = Except.ok res ∧
      res.author = some unknownStr ∧ res.modified = some unknownStr := by
  have h := C8_verifier_errors
    { core := some { creator := none, descr := some (some sessionKey), modified := none },
      settings := none }
  refine ⟨_, rfl, ?_, ?_⟩
  · exact h.2.2.1 _ _ rfl rfl rfl
  · exact h.2.2.2 _ _ rfl rfl rfl

/-- C4.  The member-write loop of `pack` emits files in the file-system
enumeration order, which is not a function of the workspace tree contents:
two byte-identical trees (the same set of path/content pairs, here a
permutation) enumerated in different orders yield different archives.  This
contradicts the claimed fixed total order over relative paths. -/
theorem C4_pack_order_not_deterministic :
    List.Perm
      [({ path := ['a'], content := ['1'] } : WalkFile),
        { path := ['b'], content := ['2'] }]
      [({ path := ['b'], content := ['2'] } : WalkFile),
        { path := ['a'], content := ['1'] }] ∧
    pack_members
        [({ path := ['a'], content := ['1'] } : WalkFile),
          { path := ['b'], content := ['2'] }]
      ≠ pack_members
        [({ path := ['b'], content := ['2'] } : WalkFile),
          { path := ['a'], content := ['1'] }] := by
  constructor
  · exact List.Perm.swap _ _ _
  · decide

/-- Helper: `rsidUpdate` leaves a list already containing the marker alone. -/
theorem rsidUpdate_of_contains (v : LStr) (lst : List (Option LStr))
    (hm : lst.contains (some v) = true) : rsidUpdate v lst = lst := by
  have hmem : some v ∈ lst := by simpa using hm
  simp [rsidUpdate, hmem]

/-- Helper: `rsidUpdate` is idempotent. -/
theorem rsidUpdate_idem (v : LStr) (lst : List (Option LStr)) :
    rsidUpdate v (rsidUpdate v lst) = rsidUpdate v lst := by
  by_cases hmem : some v ∈ lst
  · simp [rsidUpdate, hmem]
  · simp [rsidUpdate, hmem]

/-- C5.  RSID derivation and idempotence: the revision marker is the first 8
hex characters of the session-id digest, uppercased (a pure function of the
session id); a `w:rsids` collection already containing the marker is left
unchanged; and re-running `inject_metadata` with the same non-empty session
id leaves the `w:rsids` collection exactly as after the first run. -/
theorem C5_rsid_idempotent (h : LStr → LStr) (sid : LStr) :
    deriveRsid h sid = upperL (List.take 8 (h sid)) ∧
    (∀ lst, lst.contains (some (deriveRsid h sid)) = true →
      rsidUpdate (deriveRsid h sid) lst = lst) ∧
    (∀ lst, rsidUpdate (deriveRsid h sid) (rsidUpdate (deriveRsid h sid) lst)
      = rsidUpdate (deriveRsid h sid) lst) ∧
    (sid ≠ [] → ∀ (st : StaplerSt) (author author2 nl nu nl2 nu2 : LStr),
      wsRsids (inject_metadata h
          (inject_metadata h st author (some sid) nl nu).1
          author2 (some sid) nl2 nu2).1
        = wsRsids (inject_metadata h st author (some sid) nl nu).1) := by
  refine ⟨rfl, rsidUpdate_of_contains _, rsidUpdate_idem _, ?_⟩
  intro hS st author author2 nl nu nl2 nu2
  have hbeq : (sid == ([] : LStr)) = false := beq_eq_false_iff_ne.mpr hS
  cases hws : st.workspace with
  | none => simp [inject_metadata, hbeq, hws]
  | some ws =>
    cases hcore : ws.core <;> cases hset : ws.settings <;>
      simp [inject_metadata, hbeq, hws, hcore, hset, wsRsids, rsidUpdate_idem]

/-- Witness for C5 at a concrete hash stub and a collection already holding
the derived marker. -/
theorem C5_rsid_idempotent_witness :
    rsidUpdate (deriveRsid (fun _ => ['a', 'b', 'c', 'd', 'e', 'f', '0', '1', '2']) (['s']))
        [some (deriveRsid (fun _ => ['a', 'b', 'c', 'd', 'e', 'f', '0', '1', '2']) (['s']))]
      = [some (deriveRsid (fun _ => ['a', 'b', 'c', 'd', 'e', 'f', '0', '1', '2']) (['s']))] ∧
    wsRsids (inject_metadata (fun _ => ['a', 'b', 'c', 'd', 'e', 'f', '0', '1', '2'])
        (inject_metadata (fun _ => ['a', 'b', 'c', 'd', 'e', 'f', '0', '1', '2'])
          { source_hash := none,
            workspace := some { core := none, settings := some { rsids := none } } }
          (['A']) (some (['s'])) (['L']) (['U'])).1
        (['B']) (some (['s'])) (['M']) (['V'])).1
      = wsRsids (inject_metadata (fun _ => ['a', 'b', 'c', 'd', 'e', 'f', '0', '1', '2'])
        { source_hash := none,
          workspace := some { core := none, settings := some { rsids := none } } }
        (['A']) (some (['s'])) (['L']) (['U'])).1 :=
  ⟨(C5_rsid_idempotent (fun _ => ['a', 'b', 'c', 'd', 'e', 'f', '0', '1', '2']) (['s'])).2.1
      _ (by decide),
    (C5_rsid_idempotent (fun _ => ['a', 'b', 'c', 'd', 'e', 'f', '0', '1', '2']) (['s'])).2.2.2
      (by decide) _ (['A']) (['B']) (['L']) (['U']) (['M']) (['V'])⟩

/-- C9 counterexample: when the archive write fails, the workspace directory
is *not* destroyed (there is no `try/finally` around the write), contradicting
the claimed guaranteed cleanup on failure. -/
theorem C9_pack_cleanup_counterexample :
    (packSt
        { source_hash := none,
          workspace := some { core := none, settings := none } } false).1.workspace
      ≠ none ∧
    (packSt
        { source_hash := none,
          workspace := some { core := none, settings := none } } false).2
      = Except.error PackErr.zipWriteFailed :=
  ⟨by decide, rfl⟩

/-- C9 amended: after a `pack` whose archive write succeeds, the ephemeral
workspace is destroyed; when the write fails, the state (workspace included)
is left unchanged and the error is surfaced. -/
theorem C9_pack_cleanup_amended (st : StaplerSt) (ws : Workspace)
    (hws : st.workspace = some ws) :
    (packSt st true).1.workspace = none ∧
    (packSt st false).1 = st ∧
    (packSt st false).2 = Except.error PackErr.zipWriteFailed := by
  simp [packSt, hws]

/-- Witness for the amended C9 at a concrete extracted workspace. -/
theorem C9_pack_cleanup_amended_witness :
    (packSt
        { source_hash := none,
          workspace := some { core := none, settings := none } } true).1.workspace = none :=
  (C9_pack_cleanup_amended
    { source_hash := none, workspace := some { core := none, settings := none } }
    { core := none, settings := none } rfl).1

/-- C10.  `inject_metadata` on a stapler whose source hash was never captured
(`_source_hash is None`) does not fail: it embeds the literal `"UNKNOWN"` in
place of the fingerprint inside `dc:description` and returns `"UNKNOWN"`. -/
theorem C10_unknown_fingerprint (h : LStr → LStr) (ws : Workspace)
    (author S nl nu : LStr) (hS : S ≠ []) (c : CoreXml) (hc : ws.core = some c) :
    (inject_metadata h { source_hash := none, workspace := some ws }
        author (some S) nl nu).2 = unknownStr ∧
    ∃ ws' c',
      (inject_metadata h { source_hash := none, workspace := some ws }
          author (some S) nl nu).1.workspace = some ws' ∧
      ws'.core = some c' ∧
      c'.descr = some (some (descFormat S unknownStr)) := by
  have hbeq : (S == ([] : LStr)) = false := beq_eq_false_iff_ne.mpr hS
  cases hset : ws.settings <;>
    simp [inject_metadata, hbeq, hc, hset]

/-- Witness for C10 at a concrete workspace holding a `core.xml` part. -/
theorem C10_unknown_fingerprint_witness :
    (inject_metadata (fun l => l)
        { source_hash := none,
          workspace := some
            { core := some { creator := none, descr := none, modified := none },
              settings := none } }
        (['A']) (some (['s'])) (['L']) (['U'])).2 = unknownStr ∧
    ∃ ws' c',
      (inject_metadata (fun l => l)
          { source_hash := none,
            workspace := some
              { core := some { creator := none, descr := none, modified := none },
                settings := none } }
          (['A']) (some (['s'])) (['L']) (['U'])).1.workspace = some ws' ∧
      ws'.core = some c' ∧
      c'.descr = some (some (descFormat (['s']) unknownStr)) :=
  C10_unknown_fingerprint (fun l => l)
    { core := some { creator := none, descr := none, modified := none },
      settings := none }
    (['A']) (['s']) (['L']) (['U']) (by decide)
    { creator := none, descr := none, modified := none } rfl

/-! ### Lemmas for the policy engine (claim C6) -/

theorem evalFailures_foldl (ctx : PolicyCtx) :
    ∀ (ps : List (LStr × Policy)) (acc : List LStr),
      ps.foldl (fun acc p =>
          if (p.2 ctx).1 then acc else acc ++ [mkFailure p.1 (p.2 ctx).2]) acc
        = acc ++ ps.filterMap (fun p =>
            if (p.2 ctx).1 then none else some (mkFailure p.1 (p.2 ctx).2)) := by
  intro ps
  induction ps with
  | nil => intro acc; simp
  | cons p ps ih =>
    intro acc
    rcases hb : (p.2 ctx).1 with _ | _ <;>
      simp [List.foldl_cons, List.filterMap_cons, hb, ih]

theorem startsWithL_append_self : ∀ (p r : LStr), startsWithL p (p ++ r) = true := by
  intro p
  induction p with
  | nil => intro r; rfl
  | cons c p2 ih => intro r; simp [startsWithL, ih]

theorem containsSubL_nil_pat : ∀ (s : LStr), containsSubL [] s = true := by
  intro s
  cases s <;> simp [containsSubL, startsWithL]

theorem containsSubL_cons_of (pat : LStr) (c : Char) (s : LStr)
    (hs : containsSubL pat s = true) : containsSubL pat (c :: s) = true := by
  simp only [containsSubL]
  rw [hs]
  simp

theorem containsSubL_append_pat (pat : LStr) :
    ∀ (pre r : LStr), containsSubL pat (pre ++ pat ++ r) = true := by
  intro pre
  induction pre with
  | nil =>
    intro r
    cases pat with
    | nil => simpa using containsSubL_nil_pat r
    | cons c pt =>
      have h1 := startsWithL_append_self (c :: pt) r
      rw [List.cons_append] at h1
      simp [containsSubL, h1]
  | cons x pre ih =>
    intro r
    exact containsSubL_cons_of _ x _ (ih r)

theorem registerPolicy_mem (ps : List (LStr × Policy)) (n : LStr) (f : Policy)
    (p : LStr × Policy) (hp : p ∈ ps) (hne : p.1 ≠ n) :
    p ∈ registerPolicy ps n f := by
  unfold registerPolicy
  by_cases hb : ps.any (fun q => q.1 == n) = true
  · rw [if_pos hb]
    exact List.mem_map.mpr ⟨p, hp, by simp [beq_eq_false_iff_ne.mpr hne]⟩
  · rw [if_neg hb]
    exact List.mem_append_left _ hp

theorem registerAll_mem :
    ∀ (extras ps : List (LStr × Policy)) (p : LStr × Policy),
      p ∈ ps → (∀ q ∈ extras, q.1 ≠ p.1) → p ∈ registerAll ps extras := by
  intro extras
  induction extras with
  | nil => intro ps p hp _; exact hp
  | cons e es ih =>
    intro ps p hp hq
    exact ih (registerPolicy ps e.1 e.2) p
      (registerPolicy_mem ps e.1 e.2 p hp (Ne.symm (hq e (List.mem_cons_self e es))))
      (fun q hqes => hq q (List.mem_cons_of_mem e hqes))

/-- C6.  Policy evaluation: `evaluate` returns `allowed = true` iff no
registered policy denies, the failure list holds exactly one
`"[POLICY:<name>] <reason>"` string per denying policy in order, exactly one
audit entry with action `"policy_evaluate:<action>"` and outcome
`"ALLOWED"`/`"DENIED"` is appended; and for a context whose author is absent,
empty or whitespace-only (builtin `no_empty_author` not shadowed by a
re-registration), the verdict is `allowed = false` with a failure string
containing `no_empty_author`. -/
theorem C6_policy_evaluation (h : LStr → LStr) (extras : List (LStr × Policy))
    (logSt : AuditLogState) (ts action : LStr) (ctx : PolicyCtx) :
    ((evaluate h (registerAll (builtinPolicies h) extras) logSt ts action ctx).1 = true ↔
      ∀ p ∈ registerAll (builtinPolicies h) extras, (p.2 ctx).1 = true) ∧
    ((evaluate h (registerAll (builtinPolicies h) extras) logSt ts action ctx).2.1
      = (registerAll (builtinPolicies h) extras).filterMap (fun p =>
          if (p.2 ctx).1 then none else some (mkFailure p.1 (p.2 ctx).2))) ∧
    (∃ e, (evaluate h (registerAll (builtinPolicies h) extras) logSt ts action ctx).2.2.entries
        = logSt.entries ++ [e] ∧
      e.action = evalActionLabel ++ action ∧
      e.outcome = (if (evaluate h (registerAll (builtinPolicies h) extras) logSt ts action ctx).1
        then allowedStr else deniedStr)) ∧
    ((∀ q ∈ extras, q.1 ≠ noEmptyAuthorName) → pyStrip (ctx.author.getD []) = [] →
      (evaluate h (registerAll (builtinPolicies h) extras) logSt ts action ctx).1 = false ∧
      ∃ f, f ∈ (evaluate h (registerAll (builtinPolicies h) extras) logSt ts action ctx).2.1 ∧
        containsSubL noEmptyAuthorName f = true) := by
  have hfail : (evaluate h (registerAll (builtinPolicies h) extras) logSt ts action ctx).2.1
      = (registerAll (builtinPolicies h) extras).filterMap (fun p =>
          if (p.2 ctx).1 then none else some (mkFailure p.1 (p.2 ctx).2)) := by
    simp only [evaluate]
    rw [evalFailures_foldl]
    rfl
  refine ⟨?_, hfail, ?_, ?_⟩
  · show ((registerAll (builtinPolicies h) extras).foldl _ []).isEmpty = true ↔ _
    rw [evalFailures_foldl, List.nil_append, List.isEmpty_iff, List.filterMap_eq_nil_iff]
    constructor
    · intro hall p hp
      have := hall p hp
      rcases hb : (p.2 ctx).1 with _ | _
      · rw [hb] at this; simp at this
      · rfl
    · intro hall p hp
      rw [hall p hp]
      rfl
  · refine ⟨(record h logSt
      { ts := ts,
        action := evalActionLabel ++ action,
        ctx := [ (("policy_count").toList,
                   JVal.jnum (registerAll (builtinPolicies h) extras).length),
                 (("failures").toList,
                   JVal.jarr (((registerAll (builtinPolicies h) extras).foldl (fun acc p =>
                     if (p.2 ctx).1 then acc
                     else acc ++ [mkFailure p.1 (p.2 ctx).2]) []).map JVal.jstr)) ],
        outcome := if ((registerAll (builtinPolicies h) extras).foldl (fun acc p =>
            if (p.2 ctx).1 then acc
            else acc ++ [mkFailure p.1 (p.2 ctx).2]) []).isEmpty
          then allowedStr else deniedStr }).2, ?_, rfl, rfl⟩
    simp [evaluate, record]
  · intro hext hauthor
    have hmem : (noEmptyAuthorName, policy_no_empty_author)
        ∈ registerAll (builtinPolicies h) extras := by
      refine registerAll_mem extras (builtinPolicies h) _ ?_ ?_
      · simp [builtinPolicies]
      · intro q hq; exact hext q hq
    have hdeny : (policy_no_empty_author ctx).1 = false := by
      have hb : (pyStrip (ctx.author.getD []) == ([] : LStr)) = true :=
        beq_iff_eq.mpr hauthor
      simp [policy_no_empty_author, hb]
    have hfmem : mkFailure noEmptyAuthorName (policy_no_empty_author ctx).2
        ∈ (evaluate h (registerAll (builtinPolicies h) extras) logSt ts action ctx).2.1 := by
      rw [hfail]
      exact List.mem_filterMap.mpr
        ⟨(noEmptyAuthorName, policy_no_empty_author), hmem, by rw [hdeny]; rfl⟩
    constructor
    · show ((registerAll (builtinPolicies h) extras).foldl _ []).isEmpty = false
      have hne : (evaluate h (registerAll (builtinPolicies h) extras) logSt ts action ctx).2.1
          ≠ [] := List.ne_nil_of_mem hfmem
      rcases hE : ((registerAll (builtinPolicies h) extras).foldl (fun acc p =>
          if (p.2 ctx).1 then acc else acc ++ [mkFailure p.1 (p.2 ctx).2]) []).isEmpty
        with _ | _
      · exact hE
      · exact absurd (List.isEmpty_iff.mp hE) (by simpa [evaluate] using hne)
    · refine ⟨mkFailure noEmptyAuthorName (policy_no_empty_author ctx).2, hfmem, ?_⟩
      exact containsSubL_append_pat noEmptyAuthorName (("[POLICY:").toList)
        ((("] ").toList) ++ (policy_no_empty_author ctx).2)

/-- Witness for C6: the default engine (no extra registrations) on a context
whose author is a single space is denied with a `no_empty_author` failure. -/
theorem C6_policy_evaluation_witness :
    (evaluate (fun l => l) (registerAll (builtinPolicies (fun l => l)) [])
        (initLog (['A'])) (['T']) (['x'])
        { identity := none, author := some [' '], input_path := none,
          output_path := none }).1 = false ∧
    ∃ f, f ∈ (evaluate (fun l => l) (registerAll (builtinPolicies (fun l => l)) [])
        (initLog (['A'])) (['T']) (['x'])
        { identity := none, author := some [' '], input_path := none,
          output_path := none }).2.1 ∧
      containsSubL noEmptyAuthorName f = true :=
  (C6_policy_evaluation (fun l => l) [] (initLog (['A'])) (['T']) (['x'])
    { identity := none, author := some [' '], input_path := none,
      output_path := none }).2.2.2
    (by intro q hq; exact absurd hq (List.not_mem_nil q)) (by decide)

/-! ### String lemmas for the round trip (claim C1) -/

theorem containsSubL_cons_false (pat : LStr) (c : Char) (s : LStr)
    (h1 : startsWithL pat (c :: s) = false) (h2 : containsSubL pat s = false) :
    containsSubL pat (c :: s) = false := by
  simp [containsSubL, h1, h2]

theorem containsSubL_false_head (pat : LStr) (c : Char) (s : LStr)
    (h : containsSubL pat (c :: s) = false) :
    startsWithL pat (c :: s) = false ∧ containsSubL pat s = false := by
  simp only [containsSubL, Bool.or_eq_false_iff] at h
  exact h

theorem pySplit_nil (sep : LStr) : pySplit sep [] = [[]] := by
  rw [pySplit.eq_def]

theorem pySplit_cons (sep : LStr) (c : Char) (rest : LStr) :
    pySplit sep (c :: rest)
      = if _h : 0 < sep.length ∧ startsWithL sep (c :: rest) = true then
          [] :: pySplit sep (List.drop sep.length (c :: rest))
        else match pySplit sep rest with
          | [] => [[c]]
          | t :: ts => (c :: t) :: ts := by
  rw [pySplit.eq_def]

/-- Splitting a string in which the separator never occurs returns the whole
string as the single part (Python `s.split(sep) == [s]`). -/
theorem pySplit_no_match (sep : LStr) :
    ∀ (s : LStr), containsSubL sep s = false → pySplit sep s = [s] := by
  intro s
  induction s with
  | nil => intro _; exact pySplit_nil sep
  | cons c rest ih =>
    intro hc
    obtain ⟨h1, h2⟩ := containsSubL_false_head sep c rest hc
    rw [pySplit_cons, dif_neg (by simp [h1])]
    rw [ih h2]

/-- Splitting `a ++ " | " ++ b` on `" | "` splits exactly at the marked
separator when `" | "` does not occur inside `a` and `a` does not end in
`" |"` (the one way a match could straddle the boundary). -/
theorem pySplit_bar_append (b : LStr) :
    ∀ (a : LStr), containsSubL [' ', '|', ' '] a = false →
      endsWithL [' ', '|'] a = false →
      pySplit [' ', '|', ' '] (a ++ [' ', '|', ' '] ++ b)
        = a :: pySplit [' ', '|', ' '] b := by
  intro a
  induction a with
  | nil =>
    intro _ _
    show pySplit [' ', '|', ' '] (' ' :: '|' :: ' ' :: b) = [] :: pySplit [' ', '|', ' '] b
    rw [pySplit_cons, dif_pos ⟨by decide, by simp [startsWithL]⟩]
    rfl
  | cons c a2 ih =>
    intro hcont hend
    obtain ⟨hstart2, hcont2⟩ := containsSubL_false_head _ c a2 hcont
    have hend2 : endsWithL [' ', '|'] a2 = false := by
      rcases hrev : a2.reverse with _ | ⟨x, t⟩
      · simp [endsWithL, hrev, startsWithL]
      · rcases t with _ | ⟨y, t2⟩
        · simp [endsWithL, hrev, startsWithL]
        · have hL : (c :: a2).reverse = x :: y :: (t2 ++ [c]) := by
            rw [List.reverse_cons, hrev]
            simp
          rw [endsWithL, hL] at hend
          rw [endsWithL, hrev]
          simp only [List.reverse_cons, List.reverse_nil, List.nil_append,
            startsWithL] at hend ⊢
          simpa using hend
    have hstart : startsWithL [' ', '|', ' ']
        (c :: (a2 ++ ' ' :: '|' :: ' ' :: b)) = false := by
      rcases a2 with _ | ⟨d, a3⟩
      · simp [startsWithL]
      · rcases a3 with _ | ⟨e, a4⟩
        · -- a = [c, d]: a match here needs c = ' ' and d = '|', i.e. a = " |",
          -- excluded by the ends-with hypothesis
          simp only [endsWithL, List.reverse_cons, List.reverse_nil,
            List.nil_append, List.cons_append, startsWithL,
            Bool.and_true] at hend
          simp only [List.cons_append, List.nil_append, startsWithL]
          cases hc : (' ' == c) with
          | false => simp [hc]
          | true =>
            cases hd : ('|' == d) with
            | false => simp [hd]
            | true => rw [hc, hd] at hend; simp at hend
        · -- the first three characters lie inside a
          have h3 := hstart2
          simp only [startsWithL, List.cons_append] at h3 ⊢
          simpa using h3
    rw [show ((c :: a2) ++ [' ', '|', ' '] ++ b)
      = c :: (a2 ++ [' ', '|', ' '] ++ b) from rfl]
    rw [pySplit_cons, dif_neg (by simp [hstart])]
    rw [ih hcont2 hend2]

/-- Splitting via `part.split(': ', 1)` on `key ++ ": " ++ v` recovers `(key, v)` when the
key contains no colon. -/
theorem pySplitFirst_key (v : LStr) :
    ∀ (key : LStr), (∀ c ∈ key, (':' == c) = false) →
      pySplitFirst [':', ' '] (key ++ [':', ' '] ++ v) = some (key, v) := by
  intro key
  induction key with
  | nil =>
    intro _
    show pySplitFirst [':', ' '] (':' :: ' ' :: v) = some ([], v)
    rw [pySplitFirst, if_pos (by simp [startsWithL])]
    rfl
  | cons c k ih =>
    intro hk
    show pySplitFirst [':', ' '] (c :: (k ++ [':', ' '] ++ v)) = some (c :: k, v)
    rw [pySplitFirst, if_neg (by
      simp [startsWithL, hk c (List.mem_cons_self c k)])]
    rw [ih (fun d hd => hk d (List.mem_cons_of_mem c hd))]

/-- A hex digit differs from every non-hex character (left comparison). -/
theorem hex_ne (c : Char) (hc : isHexDig c = true) (d : Char)
    (hd : isHexDig d = false) : (c == d) = false := by
  by_cases he : c = d
  · subst he; simp [hc] at hd
  · exact beq_eq_false_iff_ne.mpr he

/-- A hex digit differs from every non-hex character (right comparison). -/
theorem hex_ne_rev (c : Char) (hc : isHexDig c = true) (d : Char)
    (hd : isHexDig d = false) : (d == c) = false := by
  by_cases he : d = c
  · subst he; simp [hc] at hd
  · exact beq_eq_false_iff_ne.mpr he

theorem hex_not_spc (c : Char) (hc : isHexDig c = true) : isSpc c = false := by
  simp [isSpc, hex_ne c hc ' ' (by decide), hex_ne c hc '\t' (by decide),
    hex_ne c hc '\n' (by decide), hex_ne c hc '\r' (by decide),
    hex_ne c hc (Char.ofNat 11) (by decide), hex_ne c hc (Char.ofNat 12) (by decide)]

/-- Python `str.strip()` leaves a string with no whitespace at either end unchanged. -/
theorem pyStrip_of_no_spc : ∀ (s : LStr), (∀ c ∈ s, isSpc c = false) →
    pyStrip s = s := by
  intro s hall
  cases s with
  | nil => rfl
  | cons c rest =>
    have hd1 : (c :: rest).dropWhile isSpc = c :: rest := by
      rw [List.dropWhile_cons, if_neg (by simp [hall c (List.mem_cons_self c rest)])]
    show (((c :: rest).dropWhile isSpc).reverse.dropWhile isSpc).reverse = c :: rest
    rw [hd1]
    rcases hrev : (c :: rest).reverse with _ | ⟨d, t⟩
    · exact absurd hrev (by simp)
    · have hdmem : d ∈ c :: rest := List.mem_reverse.mp
        (by rw [hrev]; exact List.mem_cons_self d t)
      have hd2 : (d :: t).dropWhile isSpc = d :: t := by
        rw [List.dropWhile_cons, if_neg (by simp [hall d hdmem])]
      rw [hd2, ← hrev, List.reverse_reverse]

/-- A hex string does not begin with `"| "`. -/
theorem hex_no_pipe_start (H : LStr) (hh : ∀ c ∈ H, isHexDig c = true) :
    startsWithL ['|', ' '] H = false := by
  cases H with
  | nil => rfl
  | cons c t =>
    simp [startsWithL,
      hex_ne_rev c (hh c (List.mem_cons_self c t)) '|' (by decide)]

/-- One scan step of the `" | "` containment check: a head other than a space
cannot begin a match. -/
theorem containsSubL_bar_cons (c : Char) (hne : (' ' == c) = false) (s : LStr)
    (hs : containsSubL [' ', '|', ' '] s = false) :
    containsSubL [' ', '|', ' '] (c :: s) = false :=
  containsSubL_cons_false _ _ _ (by simp [startsWithL, hne]) hs

/-- A hex string contains no `" | "`. -/
theorem hex_no_bar (H : LStr) (hh : ∀ c ∈ H, isHexDig c = true) :
    containsSubL [' ', '|', ' '] H = false := by
  induction H with
  | nil => rfl
  | cons c t ih =>
    exact containsSubL_bar_cons c
      (hex_ne_rev c (hh c (List.mem_cons_self c t)) ' ' (by decide)) t
      (ih (fun d hd => hh d (List.mem_cons_of_mem c hd)))

/-- The string `"XPII-CHAIN-PROVENANCE: " ++ S` contains no `" | "` when `S` contains
none and does not begin with `"| "` (the one straddle over the final space). -/
theorem bar_clean_sessionPart (S : LStr)
    (h1 : startsWithL ['|', ' '] S = false)
    (h2 : containsSubL [' ', '|', ' '] S = false) :
    containsSubL [' ', '|', ' '] (sessionKey ++ [':', ' '] ++ S) = false := by
  show containsSubL [' ', '|', ' ']
    ('X' :: 'P' :: 'I' :: 'I' :: '-' :: 'C' :: 'H' :: 'A' :: 'I' :: 'N' :: '-' ::
     'P' :: 'R' :: 'O' :: 'V' :: 'E' :: 'N' :: 'A' :: 'N' :: 'C' :: 'E' :: ':' ::
     ' ' :: S) = false
  have hlast : containsSubL [' ', '|', ' '] (' ' :: S) = false := by
    refine containsSubL_cons_false _ _ _ ?_ h2
    simp [startsWithL, h1]
  repeat refine containsSubL_bar_cons _ (by decide) _ ?_
  exact hlast

/-- The string `"XPII-CHAIN-SHA256: " ++ H` contains no `" | "` when `H` contains none
and does not begin with `"| "`. -/
theorem bar_clean_hashPart (H : LStr)
    (h1 : startsWithL ['|', ' '] H = false)
    (h2 : containsSubL [' ', '|', ' '] H = false) :
    containsSubL [' ', '|', ' '] (hashKey ++ [':', ' '] ++ H) = false := by
  show containsSubL [' ', '|', ' ']
    ('X' :: 'P' :: 'I' :: 'I' :: '-' :: 'C' :: 'H' :: 'A' :: 'I' :: 'N' :: '-' ::
     'S' :: 'H' :: 'A' :: '2' :: '5' :: '6' :: ':' :: ' ' :: H) = false
  have hlast : containsSubL [' ', '|', ' '] (' ' :: H) = false := by
    refine containsSubL_cons_false _ _ _ ?_ h2
    simp [startsWithL, h1]
  repeat refine containsSubL_bar_cons _ (by decide) _ ?_
  exact hlast

/-- The string `"XPII-CHAIN-PROVENANCE: " ++ S` does not end in `" |"` when `S` does not
and `S` is not the single character `"|"` (which would pick up the preceding
space of the key prefix). -/
theorem sessionPart_not_ends_bar (S : LStr)
    (hSend : endsWithL [' ', '|'] S = false) (hSne : S ≠ ['|']) :
    endsWithL [' ', '|'] (sessionKey ++ [':', ' '] ++ S) = false := by
  have hrev : ((sessionKey ++ [':', ' ']) ++ S).reverse
      = S.reverse ++ (' ' :: ':' :: sessionKey.reverse) := by
    simp
  rw [endsWithL, hrev]
  rcases hr : S.reverse with _ | ⟨x, t⟩
  · simp [startsWithL]
  · rcases t with _ | ⟨y, t2⟩
    · have hx : S = [x] := by
        have hS := congrArg List.reverse hr
        simpa using hS
      have hxne : ('|' == x) = false := by
        rw [beq_eq_false_iff_ne]
        intro hEq
        exact hSne (by rw [hx, ← hEq])
      simp [startsWithL, hxne]
    · rw [endsWithL, hr] at hSend
      simp only [List.cons_append, startsWithL] at hSend ⊢
      simpa using hSend

/-- The verifier recovers exactly the two embedded key/value pairs from a
description written by `inject_metadata`, under the session-id side
conditions and for a hex fingerprint. -/
theorem parsePairs_descFormat (S H : LStr)
    (hSstrip : pyStrip S = S)
    (hSbar : containsSubL [' ', '|', ' '] S = false)
    (hSstart : startsWithL ['|', ' '] S = false)
    (hSend : endsWithL [' ', '|'] S = false)
    (hSne : S ≠ ['|'])
    (hhex : ∀ c ∈ H, isHexDig c = true) :
    parsePairs (descFormat S H) = [(sessionKey, S), (hashKey, H)] := by
  have hHstart := hex_no_pipe_start H hhex
  have hHbar := hex_no_bar H hhex
  have hsplit : pySplit [' ', '|', ' '] (descFormat S H)
      = (sessionKey ++ [':', ' '] ++ S) :: [hashKey ++ [':', ' '] ++ H] := by
    have hshape : descFormat S H
        = (sessionKey ++ [':', ' '] ++ S) ++ [' ', '|', ' ']
            ++ (hashKey ++ [':', ' '] ++ H) := by
      simp [descFormat]
    rw [hshape,
      pySplit_bar_append _ _ (bar_clean_sessionPart S hSstart hSbar)
        (sessionPart_not_ends_bar S hSend hSne),
      pySplit_no_match _ _ (bar_clean_hashPart H hHstart hHbar)]
  rw [parsePairs, hsplit]
  rw [List.foldl_cons, List.foldl_cons, List.foldl_nil]
  rw [pySplitFirst_key S sessionKey (by decide),
    pySplitFirst_key H hashKey (by decide)]
  show dictUpd (dictUpd [] (pyStrip sessionKey) (pyStrip S))
    (pyStrip hashKey) (pyStrip H) = _
  rw [hSstrip, pyStrip_of_no_spc H (fun c hc => hex_not_spc c (hhex c hc)),
    show pyStrip sessionKey = sessionKey from by decide,
    show pyStrip hashKey = hashKey from by decide]
  show dictUpd [(sessionKey, S)] hashKey H = _
  rw [dictUpd, if_neg (by simp [show (sessionKey == hashKey) = false from by decide])]
  rfl

/-- C1 amended.  Round-trip: for a package containing `docProps/core.xml`,
any author `A`, and a non-empty session id `S` that contains no `" | "`,
does not start with `"| "`, does not end with `" |"`, is not the single
character `"|"`, and is unchanged by whitespace stripping, running
`unpack → inject_metadata(A, S) → pack → verify` yields a record whose
author equals `A`, whose `XPII-CHAIN-PROVENANCE` field equals `S`, and whose
`XPII-CHAIN-SHA256` field equals the hex digest of the original package bytes
captured at unpack time (the digest being a non-empty hex string). -/
theorem C1_round_trip (h : LStr → LStr) (pkg : Package) (c0 : CoreXml)
    (hcore : pkg.core = some c0) (A S tsL tsU : LStr)
    (hS0 : S ≠ [])
    (hSstrip : pyStrip S = S)
    (hSbar : containsSubL [' ', '|', ' '] S = false)
    (hSstart : startsWithL ['|', ' '] S = false)
    (hSend : endsWithL [' ', '|'] S = false)
    (hSne : S ≠ ['|'])
    (hhex : ∀ c ∈ h pkg.bytes, isHexDig c = true)
    (hlen : h pkg.bytes ≠ []) :
    ∃ p res,
      (packSt (inject_metadata h (unpack h initStapler pkg) A (some S) tsL tsU).1
        true).2 = Except.ok p ∧
      verifyPkg p = Except.ok res ∧
      res.author = some A ∧
      dictGet res.pairs sessionKey = some S ∧
      dictGet res.pairs hashKey = some (h pkg.bytes) := by
  have hbeqS : (S == ([] : LStr)) = false := beq_eq_false_iff_ne.mpr hS0
  have hbeqH : (h pkg.bytes == ([] : LStr)) = false := beq_eq_false_iff_ne.mpr hlen
  have hinj : (inject_metadata h (unpack h initStapler pkg) A (some S) tsL tsU).1
      = { source_hash := some (h pkg.bytes),
          workspace := some
            { core := some
                { creator := some (some A),
                  descr := some (some (descFormat S (h pkg.bytes))),
                  modified := some (some tsU) },
              settings := match pkg.settings with
                | none => none
                | some sx => some
                    { rsids := some (rsidUpdate (deriveRsid h S) (sx.rsids.getD [])) } } } := by
    simp only [inject_metadata, unpack, hbeqS, hbeqH, hcore]
    rfl
  rw [hinj]
  have htoken : containsSubL sessionKey (descFormat S (h pkg.bytes)) = true := by
    have h0 := containsSubL_append_pat sessionKey []
      ([':', ' '] ++ S ++ [' ', '|', ' '] ++ hashKey ++ [':', ' '] ++ h pkg.bytes)
    simp only [List.nil_append, List.append_assoc] at h0
    simp only [descFormat, List.append_assoc]
    exact h0
  refine ⟨⟨some ⟨some (some A),
        some (some (descFormat S (h pkg.bytes))),
        some (some tsU)⟩,
      match pkg.settings with
        | none => none
        | some sx => some ⟨some (rsidUpdate (deriveRsid h S) (sx.rsids.getD []))⟩⟩,
    ⟨descFormat S (h pkg.bytes),
      parsePairs (descFormat S (h pkg.bytes)),
      some A,
      some tsU⟩, rfl, ?_, rfl, ?_, ?_⟩
  · show verifyPkg _ = _
    simp only [verifyPkg, htoken, if_true]
  · show dictGet (parsePairs (descFormat S (h pkg.bytes))) sessionKey = some S
    rw [parsePairs_descFormat S (h pkg.bytes) hSstrip hSbar hSstart hSend hSne hhex]
    rw [dictGet]
    simp [List.find?]
  · show dictGet (parsePairs (descFormat S (h pkg.bytes))) hashKey = some (h pkg.bytes)
    rw [parsePairs_descFormat S (h pkg.bytes) hSstrip hSbar hSstart hSend hSne hhex]
    rw [dictGet]
    simp [List.find?, show (sessionKey == hashKey) = false from by decide]

/-- Witness for the amended C1 at a concrete one-byte package and the hex
stub digest `"abcd"`. -/
theorem C1_round_trip_witness :
    ∃ p res,
      (packSt (inject_metadata (fun _ => ['a', 'b', 'c', 'd'])
          (unpack (fun _ => ['a', 'b', 'c', 'd']) initStapler
            { bytes := ['b'],
              core := some { creator := none, descr := none, modified := none },
              settings := none })
          (['A', 'u']) (some (['s', '1'])) (['L']) (['U'])).1 true).2
        = Except.ok p ∧
      verifyPkg p = Except.ok res ∧
      res.author = some (['A', 'u']) ∧
      dictGet res.pairs sessionKey = some (['s', '1']) ∧
      dictGet res.pairs hashKey = some (['a', 'b', 'c', 'd']) :=
  C1_round_trip (fun _ => ['a', 'b', 'c', 'd'])
    { bytes := ['b'],
      core := some { creator := none, descr := none, modified := none },
      settings := none }
    { creator := none, descr := none, modified := none } rfl
    (['A', 'u']) (['s', '1']) (['L']) (['U'])
    (by decide) (by decide) (by decide) (by decide) (by decide) (by decide)
    (by decide) (by decide)

/-- C1 counterexample to the claim as stated: the session id `"A "`
(non-empty, free of `" | "`, no collision with the key format) does not
round-trip — `verify` strips the parsed value, returning `"A"` instead of
`"A "`, because `value.strip()` is applied in the recovery loop. -/
theorem C1_round_trip_counterexample :
    ∃ p res,
      (packSt (inject_metadata (fun _ => ['a', 'b', 'c', 'd'])
          (unpack (fun _ => ['a', 'b', 'c', 'd']) initStapler
            { bytes := ['b'],
              core := some { creator := none, descr := none, modified := none },
              settings := none })
          (['A', 'u']) (some (['A', ' '])) (['L']) (['U'])).1 true).2
        = Except.ok p ∧
      verifyPkg p = Except.ok res ∧
      dictGet res.pairs sessionKey = some (['A']) ∧
      dictGet res.pairs sessionKey ≠ some (['A', ' ']) := by
  have hsplit : pySplit [' ', '|', ' '] (descFormat (['A', ' ']) (['a', 'b', 'c', 'd']))
      = (sessionKey ++ [':', ' '] ++ ['A', ' '])
          :: [hashKey ++ [':', ' '] ++ ['a', 'b', 'c', 'd']] := by
    have hshape : descFormat (['A', ' ']) (['a', 'b', 'c', 'd'])
        = (sessionKey ++ [':', ' '] ++ ['A', ' ']) ++ [' ', '|', ' ']
            ++ (hashKey ++ [':', ' '] ++ ['a', 'b', 'c', 'd']) := by
      simp [descFormat]
    rw [hshape,
      pySplit_bar_append _ _ (bar_clean_sessionPart _ (by decide) (by decide))
        (sessionPart_not_ends_bar _ (by decide) (by decide)),
      pySplit_no_match _ _ (bar_clean_hashPart _ (by decide) (by decide))]
  have hpairs : parsePairs (descFormat (['A', ' ']) (['a', 'b', 'c', 'd']))
      = [(sessionKey, ['A']), (hashKey, ['a', 'b', 'c', 'd'])] := by
    simp only [parsePairs]
    rw [hsplit]
    decide
  refine ⟨_, _, rfl, rfl, ?_, ?_⟩
  · show dictGet (parsePairs (descFormat (['A', ' ']) (['a', 'b', 'c', 'd'])))
      sessionKey = some (['A'])
    rw [hpairs]
    decide
  · show dictGet (parsePairs (descFormat (['A', ' ']) (['a', 'b', 'c', 'd'])))
      sessionKey ≠ some (['A', ' '])
    rw [hpairs]
    decide

end XPII
